import Mathlib

/-!
# Verification of the dict-vocab MDict index builder

Shallow embedding of `src/dict_vocab/indexer/mdict_indexer.py`:

* `get_index` embeds the record-block / key-list loop of
  `ExtendedMDX.get_index` (lines 86-141).  `ExtendedMDD.get_index`
  (lines 187-233) contains the character-identical loop, so one embedding
  covers both.
* `build_mdx_index` / `prepare_indexes_mdx` embed the SQLite build pass of
  `IndexBuilder._build_mdx_index` (lines 299-341) and
  `IndexBuilder._prepare_indexes` (lines 285-297), with the SQLite database
  file modelled as an optional pair of optional tables.
* `lookup_indexes`, `extract_data`, `mdx_lookup`, `replace_stylesheet` and
  `get_keys` embed the query path (lines 405-546).  SQLite's `LIKE` and
  `lower()` are modelled by `likeMatch` and `sqliteLower` (ASCII case
  folding, `%` = zero or more characters, `_` = exactly one character).

The block codec (`MDX._decode_block`, the header parser) is an external
collaborator of this subsystem; it enters the model as the `decode`
parameter and as the already-parsed block-info list, key list and record
section bytes.
-/

namespace DictVocab

/-- One row of the index, in the field order of the dict built at
`mdict_indexer.py` lines 126-135 / of the `MDX_INDEX` table. -/
structure IndexEntry where
  file_pos : Nat
  compressed_size : Nat
  decompressed_size : Nat
  record_block_type : Nat
  record_start : Nat
  record_end : Nat
  offset : Nat
  key_text : String
deriving Repr, DecidableEq

/-- Errors raised during a build pass. -/
inductive BuildError where
  /-- `raise Exception('未知的压缩类型: %r' % record_block_type)` (line 103),
  carrying the offending first-four-bytes tag. -/
  | unknownCompression (tag : List Nat)
  /-- an exception out of the external `_decode_block` codec. -/
  | decodeFailure
  /-- `assert len(block_decompressed) == decompressed_size` (line 110). -/
  | assertFailed
  /-- `sqlite3.OperationalError` from `CREATE TABLE` on an existing table. -/
  | tableExists (t : String)
  /-- `sqlite3.OperationalError` from `CREATE INDEX` on an existing index. -/
  | indexExists
deriving Repr, DecidableEq

/-- Lines 95-103: the compression tag is the first 4 bytes of the block as
read from the file (`block_compressed[:4]`); `b'\x00\x00\x00\x00'` is raw
(0), `b'\x01\x00\x00\x00'` LZO (1), `b'\x02\x00\x00\x00'` zlib (2), anything
else - including a short read of fewer than 4 bytes - is unknown. -/
def blockTypeOf (bytes : List Nat) : Option Nat :=
  if bytes.take 4 = [0, 0, 0, 0] then some 0
  else if bytes.take 4 = [1, 0, 0, 0] then some 1
  else if bytes.take 4 = [2, 0, 0, 0] then some 2
  else none

/-- Lines 112-137: the inner `while key_idx < len(self._key_list)` loop for
one block with cumulative decompressed offset `off` and declared
decompressed size `ds`.  Returns the entries emitted for this block and the
keys left for later blocks.  The Python break test
`record_start - offset >= decompressed_size` is over unbounded integers, so
for natural inputs it is exactly `off + ds ≤ record_start`. -/
def splitBlockKeys (off ds pos cs bt : Nat) :
    List (Nat × String) → List IndexEntry × List (Nat × String)
  | [] => ([], [])
  | (rs, kt) :: rest =>
    if off + ds ≤ rs then ([], (rs, kt) :: rest)
    else
      let re : Nat :=
        match rest with
        | (rs2, _) :: _ => rs2
        | [] => ds + off
      let e : IndexEntry :=
        { file_pos := pos, compressed_size := cs, decompressed_size := ds
          record_block_type := bt, record_start := rs, record_end := re
          offset := off, key_text := kt }
      let p := splitBlockKeys off ds pos cs bt rest
      (e :: p.1, p.2)

/-- Lines 105-110: the optional decode-and-verify step (`check_block`
mode); `decode` models the external `_decode_block` codec (`none` = codec
exception), and the decoded length must equal the declared size. -/
def checkBlock (check : Bool) (decode : List Nat → Nat → Option (List Nat))
    (blockCompressed : List Nat) (ds : Nat) : Except BuildError Unit :=
  if check then
    match decode blockCompressed ds with
    | none => .error .decodeFailure
    | some dec => if dec.length = ds then .ok () else .error .assertFailed
  else .ok ()

/-- Lines 90-139: the outer `for compressed_size, decompressed_size in
record_block_info_list` loop of `ExtendedMDX.get_index`.  `pos` is the file
position at the start of the current block (`f.tell()`), `file` the file
contents from that position on, `off` the cumulative decompressed size of
the prior blocks.  `check` is the `check_block` flag. -/
def getIndexGo (check : Bool) (decode : List Nat → Nat → Option (List Nat)) :
    Nat → Nat → List (Nat × String) → List (Nat × Nat) → List Nat →
    Except BuildError (List IndexEntry)
  | _, _, _, [], _ => .ok []
  | pos, off, keys, (cs, ds) :: bs, file =>
    let blockCompressed := file.take cs
    match blockTypeOf blockCompressed with
    | none => .error (.unknownCompression (blockCompressed.take 4))
    | some bt =>
      match checkBlock check decode blockCompressed ds with
      | .error e => .error e
      | .ok _ =>
        let p := splitBlockKeys off ds pos cs bt keys
        match getIndexGo check decode (pos + blockCompressed.length)
            (off + ds) p.2 bs (file.drop cs) with
        | .ok es => .ok (p.1 ++ es)
        | .error e => .error e

/-- `ExtendedMDX.get_index` after the header/info-table reads: `pos0` is the
file position of the first record block, `blocks` the parsed
`record_block_info_list` of `(compressed_size, decompressed_size)` pairs,
`keys` the codec's `_key_list` of `(record_start, key_text)` pairs and
`file` the file contents from `pos0` on. -/
def get_index (pos0 : Nat) (keys : List (Nat × String))
    (blocks : List (Nat × Nat)) (file : List Nat) (check : Bool)
    (decode : List Nat → Nat → Option (List Nat)) :
    Except BuildError (List IndexEntry) :=
  getIndexGo check decode pos0 0 keys blocks file

/-- Every block's first four bytes (at its position in the record section)
carry one of the three known compression tags. -/
def blocksWellTyped : List (Nat × Nat) → List Nat → Bool
  | [], _ => true
  | (cs, _) :: bs, file =>
    (blockTypeOf (file.take cs)).isSome && blocksWellTyped bs (file.drop cs)

/-- Total declared decompressed size of the record section. -/
def sumDecompressed (blocks : List (Nat × Nat)) : Nat :=
  (blocks.map Prod.snd).sum

/-- A convenient decode model for concrete raw blocks: skip the 4 tag
bytes and return `ds` payload bytes. -/
def decodeRaw (c : List Nat) (ds : Nat) : List Nat := (c.drop 4).take ds

/-! ## Index Store (SQLite database file), lines 285-341 -/

/-- An on-disk index database: the optional `MDX_INDEX` and `META` tables
and the `key_index` SQL index (`none` table = table absent). -/
structure MdxDb where
  mdxIndexTbl : Option (List IndexEntry)
  metaTbl : Option (List (String × String))
  hasKeyIndex : Bool
deriving Repr, DecidableEq

/-- The freshly created database file `sqlite3.connect` makes when the
path does not exist yet. -/
def MdxDb.empty : MdxDb := ⟨none, none, false⟩

/-- The rows written into `META` at lines 328-335 (title, description and
encoding come from the container header, an external collaborator). -/
def metaRowsOf (encoding stylesheetJson title description : String) :
    List (String × String) :=
  [("encoding", encoding), ("stylesheet", stylesheetJson), ("title", title),
   ("description", description), ("version", "1.0")]

/-- `IndexBuilder._build_mdx_index` (lines 299-341) as a transition on the
store file: run `get_index`, then connect (creating the file if absent) and
issue `CREATE TABLE MDX_INDEX`, the inserts, `CREATE TABLE META`, and the
optional `CREATE INDEX`.  `CREATE TABLE`/`CREATE INDEX` on an existing
table/index raises `sqlite3.OperationalError`; the code never drops or
removes an existing table first.  Returns the resulting store file state
and the raised error, if any. -/
def build_mdx_index (store : Option MdxDb) (pos0 : Nat)
    (keys : List (Nat × String)) (blocks : List (Nat × Nat)) (file : List Nat)
    (check : Bool) (decode : List Nat → Nat → Option (List Nat))
    (metaRows : List (String × String)) (sqlIndex : Bool) :
    Option MdxDb × Option BuildError :=
  match get_index pos0 keys blocks file check decode with
  | .error e => (store, some e)
  | .ok rows =>
    let db := store.getD MdxDb.empty
    match db.mdxIndexTbl with
    | some _ => (some db, some (.tableExists "MDX_INDEX"))
    | none =>
      let db1 : MdxDb := { db with mdxIndexTbl := some rows }
      match db1.metaTbl with
      | some _ => (some db1, some (.tableExists "META"))
      | none =>
        let db2 : MdxDb := { db1 with metaTbl := some metaRows }
        if sqlIndex then
          if db2.hasKeyIndex then (some db2, some .indexExists)
          else (some { db2 with hasKeyIndex := true }, none)
        else (some db2, none)

/-- The MDX half of `IndexBuilder._prepare_indexes` (lines 285-293): build
when `force_rebuild` is set or the store file is absent, otherwise only
load metadata (which never writes the file). -/
def prepare_indexes_mdx (forceRebuild : Bool) (store : Option MdxDb)
    (pos0 : Nat) (keys : List (Nat × String)) (blocks : List (Nat × Nat))
    (file : List Nat) (check : Bool)
    (decode : List Nat → Nat → Option (List Nat))
    (metaRows : List (String × String)) (sqlIndex : Bool) :
    Option MdxDb × Option BuildError :=
  if forceRebuild || store.isNone then
    build_mdx_index store pos0 keys blocks file check decode metaRows sqlIndex
  else (store, none)

/-! ## Query path, lines 405-546 -/

/-- SQLite's built-in `lower()`: ASCII `A`-`Z` fold to lower case, all
other characters are unchanged. -/
def sqliteLowerChar (c : Char) : Char :=
  if 65 ≤ c.toNat ∧ c.toNat ≤ 90 then Char.ofNat (c.toNat + 32) else c

/-- `lower()` applied to a text value. -/
def sqliteLower (s : String) : String := ⟨s.data.map sqliteLowerChar⟩

/-- The row-matching predicate of `_lookup_indexes` (lines 463-467):
`lower(key_text) = lower(?)` when `ignorecase`, else `key_text = ?`
(BINARY equality). -/
def keyMatches (ignorecase : Bool) (rowKey keyword : String) : Bool :=
  if ignorecase then sqliteLower rowKey == sqliteLower keyword
  else rowKey == keyword

/-- `IndexBuilder._lookup_indexes` (lines 457-482): `[]` when the database
file does not exist, else the `MDX_INDEX` rows whose key matches. -/
def lookup_indexes (store : Option (List IndexEntry)) (keyword : String)
    (ignorecase : Bool) : List IndexEntry :=
  match store with
  | none => []
  | some rows => rows.filter (fun r => keyMatches ignorecase r.key_text keyword)

/-- Python's `l[a:b]` for `0 ≤ a` and `0 ≤ b` (out-of-range bounds clamp:
the slice never reads past the end of `l`). -/
def pySlice (l : List Nat) (a b : Nat) : List Nat := (l.take b).drop a

/-- `IndexBuilder._extract_data` (lines 484-497): seek to `file_pos`, read
`compressed_size` bytes, decode via the external codec, then slice
`[record_start - offset : record_end - offset]` out of the decoded block.
The subtractions are nonnegative for rows the Locator emits. -/
def extract_data (file : List Nat) (decode : List Nat → Nat → List Nat)
    (idx : IndexEntry) : List Nat :=
  let blockCompressed := (file.drop idx.file_pos).take idx.compressed_size
  let blockDecompressed := decode blockCompressed idx.decompressed_size
  pySlice blockDecompressed (idx.record_start - idx.offset)
    (idx.record_end - idx.offset)

/-! ## Stylesheet substitution, lines 499-512 -/

/-- The backquote character delimiting style markers. -/
def backquote : Char := Char.ofNat 96

/-- The NUL character stripped off decoded definitions. -/
def nulChar : Char := Char.ofNat 0

/-- Python `str.rstrip()` whitespace (ASCII part). -/
def isPySpace (c : Char) : Bool :=
  c == ' ' || c == '\t' || c == '\n' || c == '\r' ||
    c == Char.ofNat 11 || c == Char.ofNat 12

/-- Python `part.rstrip()`. -/
def pyRstrip (s : List Char) : List Char :=
  (s.reverse.dropWhile isPySpace).reverse

/-- Python `text.strip('\x00')`: NULs are removed from *both* ends. -/
def pyStrip0 (s : List Char) : List Char :=
  ((s.dropWhile (· == nulChar)).reverse.dropWhile (· == nulChar)).reverse

/-- A marker of the regex `` `\d+` `` starting at the head of the input:
returns the digits between the backquotes and the rest of the input. -/
def matchMarker : List Char → Option (List Char × List Char)
  | [] => none
  | c :: rest =>
    if c == backquote then
      let digits := rest.takeWhile Char.isDigit
      match rest.dropWhile Char.isDigit with
      | d :: rest2 => if digits.isEmpty = false && d == backquote
          then some (digits, rest2) else none
      | [] => none
    else none

/-- `re.split(r'`\d+`', text)` together with `re.findall(r'`\d+`', text)`
(lines 503-504), scanning left to right for non-overlapping markers;
returns (parts, tag digits).  Fueled so that the kernel can evaluate it;
the initial fuel `text.length` always suffices because each step consumes
at least one character. -/
def splitTagsF : Nat → List Char → List (List Char) × List (List Char)
  | 0, cs => ([cs], [])
  | _ + 1, [] => ([[]], [])
  | fuel + 1, c :: rest =>
    match matchMarker (c :: rest) with
    | some (digits, after) =>
      let p := splitTagsF fuel after
      ([] :: p.1, digits :: p.2)
    | none =>
      match splitTagsF fuel rest with
      | (part :: ps, ts) => ((c :: part) :: ps, ts)
      | ([], ts) => ([[c]], ts)

/-- Split `text` on `` `N` `` markers; `parts.length = tags.length + 1`. -/
def splitTags (text : List Char) : List (List Char) × List (List Char) :=
  splitTagsF text.length text

/-- `self._stylesheet.get(tags[i][1:-1], ('', ''))` (line 507): the
stylesheet as an association list from tag digits to an (open, close)
markup pair; a missing tag yields the empty pair. -/
def stylesheetGet (ss : List (String × String × String)) (tag : String) :
    String × String :=
  match ss.find? (fun e => e.1 == tag) with
  | some e => (e.2.1, e.2.2)
  | none => ("", "")

/-- The text appended for one `(tag, part)` pair (lines 507-511): when the
part is nonempty and ends in a newline, the close markup goes before a
normalized CRLF terminator and the part loses its trailing whitespace. -/
def segmentOf (ss : List (String × String × String)) (tag part : List Char) :
    List Char :=
  let oc := stylesheetGet ss (String.mk tag)
  if part ≠ [] ∧ part.getLast? = some '\n' then
    oc.1.data ++ pyRstrip part ++ oc.2.data ++ ['\r', '\n']
  else oc.1.data ++ part ++ oc.2.data

/-- The `for i, part in enumerate(parts[1:])` loop (lines 506-511), walking
the remaining parts and the tags in parallel. -/
def rsGo (ss : List (String × String × String)) :
    List (List Char) → List (List Char) → List Char
  | part :: ps, tag :: ts => segmentOf ss tag part ++ rsGo ss ps ts
  | _, _ => []

/-- `IndexBuilder._replace_stylesheet` (lines 499-512). -/
def replace_stylesheet (ss : List (String × String × String))
    (text : List Char) : List Char :=
  let pt := splitTags text
  match pt.1 with
  | [] => []
  | p0 :: rest => p0 ++ rsGo ss rest pt.2

/-- The post-processing of one extracted text record in `mdx_lookup`
(lines 427-429): strip NULs from both ends, then substitute the stylesheet
only when the stylesheet mapping is nonempty (`if self._stylesheet:`).
The lossy `data.decode(encoding, errors='ignore')` step is the external
codec's text decoding and enters the model as the already-decoded text. -/
def postprocess (ss : List (String × String × String)) (text : List Char) :
    List Char :=
  let t := pyStrip0 text
  if ss.isEmpty then t else replace_stylesheet ss t

/-- `IndexBuilder.mdx_lookup` (lines 405-431): look up index rows, return
`[]` when there are none, else extract and post-process each row.
`decodeText` models the declared-encoding lossy byte decoding. -/
def mdx_lookup (store : Option (List IndexEntry)) (file : List Nat)
    (decode : List Nat → Nat → List Nat) (decodeText : List Nat → List Char)
    (ss : List (String × String × String)) (keyword : String)
    (ignorecase : Bool) : List (List Char) :=
  let indexes := lookup_indexes store keyword ignorecase
  if indexes.isEmpty then []
  else indexes.map (fun idx =>
    postprocess ss (decodeText (extract_data file decode idx)))

/-! ## Key listing, lines 532-546 -/

/-- SQLite `LIKE` matching (default, no ESCAPE clause): `%` matches zero
or more characters, `_` matches exactly one character, and ordinary
characters compare up to ASCII case. -/
def likeMatch : List Char → List Char → Bool
  | [], s => s.isEmpty
  | c :: ps, s =>
    if c == '%' then s.tails.any (fun t => likeMatch ps t)
    else
      match s with
      | [] => false
      | d :: s2 =>
        ((c == '_') || (sqliteLowerChar c == sqliteLowerChar d)) &&
          likeMatch ps s2

/-- `pattern.replace('*', '%')` (line 538). -/
def translateStar (p : List Char) : List Char :=
  p.map (fun c => if c == '*' then '%' else c)

/-- `IndexBuilder._get_keys` (lines 532-546): `[]` when the database file
does not exist; with a nonempty pattern, the keys matching the
`*`-to-`%`-translated pattern under `LIKE`; with an empty pattern
(`if pattern:` falsy), all keys. -/
def get_keys (store : Option (List IndexEntry)) (pat : String) :
    List String :=
  match store with
  | none => []
  | some rows =>
    if pat ≠ "" then
      let sqlPattern := translateStar pat.data
      (rows.filter (fun r => likeMatch sqlPattern r.key_text.data)).map
        (fun r => r.key_text)
    else rows.map (fun r => r.key_text)

/-! ## Spec-side definitions (from the claims' words, for comparison) -/

/-- The glob matching the words of C4: `*` means zero or more characters
and every other pattern character is literal. -/
def globMatch : List Char → List Char → Bool
  | [], s => s.isEmpty
  | c :: ps, s =>
    if c == '*' then s.tails.any (fun t => globMatch ps t)
    else
      match s with
      | [] => false
      | d :: s2 => (c == d) && globMatch ps s2

/-- C4's claimed semantics of `listKeys` with a pattern: exactly the keys
matched by the glob. -/
def listKeys_glob_spec (store : Option (List IndexEntry)) (pat : String) :
    List String :=
  match store with
  | none => []
  | some rows =>
    (rows.filter (fun r => globMatch pat.data r.key_text.data)).map
      (fun r => r.key_text)

/-- Whether a key's text starts with `ab` up to ASCII case - the amended
C4 reading of `listKeys("ab*")`. -/
def startsWithAbCI : List Char → Bool
  | a :: b :: _ => (sqliteLowerChar a == 'a') && (sqliteLowerChar b == 'b')
  | _ => false

/-- The substitution loop written the spec's way: a fold over the
(tag, part) pairs. -/
def foldSegments (ss : List (String × String × String))
    (tags parts : List (List Char)) (init : List Char) : List Char :=
  (tags.zip parts).foldl (fun acc x => acc ++ segmentOf ss x.1 x.2) init

/-- Stylesheet substitution written from the claim's words: split on the
markers, emit the literal text between them, and append each boundary's
segment. -/
def substitution_spec (ss : List (String × String × String))
    (text : List Char) : List Char :=
  let pt := splitTags text
  match pt.1 with
  | [] => []
  | p0 :: rest => foldSegments ss pt.2 rest p0

/-- Strip trailing NULs only. -/
def rstripNulls (s : List Char) : List Char :=
  List.rdropWhile (· == nulChar) s

/-- The post-processing pipeline as C6 words it: strip *trailing* null
padding, then apply the stylesheet substitution. -/
def postprocess_spec (ss : List (String × String × String))
    (text : List Char) : List Char :=
  substitution_spec ss (rstripNulls text)

/-- The amended pipeline: strip nulls from both ends and substitute only
when the stylesheet is nonempty. -/
def postprocess_spec_amended (ss : List (String × String × String))
    (text : List Char) : List Char :=
  let t := List.rdropWhile (· == nulChar) (text.dropWhile (· == nulChar))
  if ss.isEmpty then t else substitution_spec ss t

/-! ## Concrete instances used by closed theorems and witnesses -/

/-- Record section of Scenario A: one raw block, compressed size 10
(4 tag bytes + 6 payload bytes), decompressed size 20. -/
def fileA : List Nat := [0, 0, 0, 0, 7, 7, 7, 7, 7, 7]

/-- A store row used by concrete store-level theorems. -/
def sampleRow : IndexEntry := ⟨16, 10, 20, 0, 0, 20, 0, "key1"⟩

/-- An already-built store file holding one row, the metadata record and
the `key_index` SQL index. -/
def existingDb : MdxDb :=
  ⟨some [sampleRow], some (metaRowsOf "UTF-8" "{}" "t" "d"), true⟩

/-- A store row whose key text is `AB`. -/
def rowAB : IndexEntry := ⟨0, 10, 20, 0, 0, 20, 0, "AB"⟩

/-- Record section for the cross-block-span instance: two raw blocks of
compressed size 14 (4 tag bytes + 10 payload bytes) and decompressed
size 10 each. -/
def fileC8 : List Nat :=
  [0, 0, 0, 0, 100, 101, 102, 103, 104, 105, 106, 107, 108, 109,
   0, 0, 0, 0, 200, 201, 202, 203, 204, 205, 206, 207, 208, 209]

/-- The key list of the cross-block-span instance (strictly increasing
record starts). -/
def keysC8 : List (Nat × String) := [(0, "a"), (5, "b"), (15, "c")]

/-- The row the Locator emits for key `b` of `keysC8`: its `record_end`
(the next key's start, 15) lies past its own block's decompressed range
`[0, 10)`. -/
def rowB : IndexEntry := ⟨0, 14, 10, 0, 5, 15, 0, "b"⟩

/-- The first row the Locator emits in Scenario A. -/
def rowA1 : IndexEntry := ⟨16, 10, 20, 0, 0, 10, 0, "key1"⟩

/-- The second row the Locator emits in Scenario A. -/
def rowA2 : IndexEntry := ⟨16, 10, 20, 0, 10, 20, 0, "key2"⟩

end DictVocab

namespace DictVocab

/-- C1: Key Locator assignment.  On a container with 2 keys in one raw
block of sizes compressed=10 / decompressed=20, `get_index` emits exactly 2
`KeyLocation` rows; the first row's `record_end` equals the second key's
`record_start` (10) and the second row's `record_end` equals the
cumulative offset plus the decompressed size (20). -/
theorem locator_scenarioA :
    get_index 16 [(0, "key1"), (10, "key2")] [(10, 20)] fileA false
        (fun _ _ => none) =
      .ok [⟨16, 10, 20, 0, 0, 10, 0, "key1"⟩,
           ⟨16, 10, 20, 0, 10, 20, 0, "key2"⟩] := by
  rfl

/-- C2: building with `force_rebuild` on an existing store does not replace
it: the build issues `CREATE TABLE MDX_INDEX` against the already-populated
database and fails, leaving the old store in place.  This contradicts the
claim (and the builder's own docstring); the MDD build path removes the
old file first, which the MDX path omits. -/
theorem force_rebuild_existing_store_errors :
    prepare_indexes_mdx true (some existingDb) 16 [(0, "key1")] [(10, 20)]
        fileA false (fun _ _ => none) (metaRowsOf "UTF-8" "{}" "t" "d") true =
      (some existingDb, some (.tableExists "MDX_INDEX")) := by
  rfl

/-- Any record section containing a block whose first four bytes are not a
known compression tag makes `get_index` (with `check_block` off, the
builder's default) raise the unknown-compression error. -/
theorem getIndexGo_badType (decode : List Nat → Nat → Option (List Nat)) :
    ∀ (blocks : List (Nat × Nat)) (file : List Nat) (pos off : Nat)
      (keys : List (Nat × String)),
      blocksWellTyped blocks file = false →
      ∃ tag, getIndexGo false decode pos off keys blocks file =
        .error (.unknownCompression tag) := by
  intro blocks
  induction blocks with
  | nil => intro file pos off keys h; simp [blocksWellTyped] at h
  | cons b bs ih =>
    obtain ⟨cs, ds⟩ := b
    intro file pos off keys h
    cases hb : blockTypeOf (file.take cs) with
    | none =>
      exact ⟨(file.take cs).take 4, by simp [getIndexGo, hb]⟩
    | some bt =>
      rw [blocksWellTyped, hb] at h
      simp at h
      obtain ⟨tag, htag⟩ := ih (file.drop cs) (pos + (file.take cs).length)
        (off + ds) (splitBlockKeys off ds pos cs bt keys).2 h
      simp only [List.length_take] at htag
      exact ⟨tag, by simp [getIndexGo, hb, checkBlock, htag]⟩

/-- C3: unsupported compression aborts atomically.  When some block's
first 4 bytes are none of the three known tags, the build raises the
unknown-compression error and the store file is left exactly as it was
(in particular, absent if it was absent): `sqlite3.connect` is never
reached. -/
theorem unknown_compression_aborts (store : Option MdxDb) (pos0 : Nat)
    (keys : List (Nat × String)) (blocks : List (Nat × Nat)) (file : List Nat)
    (decode : List Nat → Nat → Option (List Nat))
    (metaRows : List (String × String)) (sqlIndex : Bool)
    (hbad : blocksWellTyped blocks file = false) :
    ∃ tag, build_mdx_index store pos0 keys blocks file false decode metaRows
        sqlIndex = (store, some (.unknownCompression tag)) := by
  obtain ⟨tag, htag⟩ := getIndexGo_badType decode blocks file pos0 0 keys hbad
  exact ⟨tag, by simp [build_mdx_index, get_index, htag]⟩

/-- Witness for C3 at a concrete input: one block tagged `9 9 9 9`, no
pre-existing store; the build errors and the store file stays absent. -/
theorem unknown_compression_aborts_witness :
    blocksWellTyped [(4, 5)] [9, 9, 9, 9] = false ∧
      ∃ tag, build_mdx_index none 0 [(0, "a")] [(4, 5)] [9, 9, 9, 9] false
          (fun _ _ => none) (metaRowsOf "UTF-8" "{}" "t" "d") true =
        (none, some (.unknownCompression tag)) :=
  ⟨by decide,
   unknown_compression_aborts none 0 [(0, "a")] [(4, 5)] [9, 9, 9, 9]
     (fun _ _ => none) (metaRowsOf "UTF-8" "{}" "t" "d") true (by decide)⟩

/-- C7: case-insensitive superset.  Every row returned by the exact
(case-sensitive) lookup is also returned by the case-insensitive lookup. -/
theorem case_insensitive_superset (rows : List IndexEntry) (keyword : String)
    (e : IndexEntry) (h : e ∈ lookup_indexes (some rows) keyword false) :
    e ∈ lookup_indexes (some rows) keyword true := by
  simp [lookup_indexes, keyMatches, List.mem_filter] at h ⊢
  exact ⟨h.1, by rw [h.2]⟩

/-- Witness for C7 at a concrete input. -/
theorem case_insensitive_superset_witness :
    sampleRow ∈ lookup_indexes (some [sampleRow]) "key1" false ∧
      sampleRow ∈ lookup_indexes (some [sampleRow]) "key1" true :=
  ⟨by decide, case_insensitive_superset [sampleRow] "key1" sampleRow (by decide)⟩

/-- C9: a missing key is not an error.  When no row matches the keyword
(under the lookup's own matching predicate), `mdx_lookup` returns the
empty list. -/
theorem missing_key_empty (rows : List IndexEntry) (file : List Nat)
    (decode : List Nat → Nat → List Nat) (decodeText : List Nat → List Char)
    (ss : List (String × String × String)) (keyword : String) (ic : Bool)
    (h : ∀ e ∈ rows, keyMatches ic e.key_text keyword = false) :
    mdx_lookup (some rows) file decode decodeText ss keyword ic = [] := by
  have hnil : lookup_indexes (some rows) keyword ic = [] := by
    simp only [lookup_indexes]
    exact List.filter_eq_nil_iff.mpr (by simpa using h)
  simp [mdx_lookup, hnil]

/-- Witness for C9 at a concrete input: `lookupExact("missing")` on a
store holding only `key1` returns `[]`. -/
theorem missing_key_empty_witness :
    (∀ e ∈ [sampleRow], keyMatches false e.key_text "missing" = false) ∧
      mdx_lookup (some [sampleRow]) [] (fun _ _ => []) (fun _ => []) []
          "missing" false = [] :=
  ⟨by decide,
   missing_key_empty [sampleRow] [] (fun _ _ => []) (fun _ => []) []
     "missing" false (by decide)⟩

/-- C4 counterexample: the store's `LIKE` matching is ASCII
case-insensitive, so `listKeys("ab*")` on a store whose only key is `AB`
returns `["AB"]`, while the claimed glob semantics (`*` = zero or more
characters, every other character literal) matches nothing. -/
theorem listKeys_glob_counterexample :
    get_keys (some [rowAB]) "ab*" = ["AB"] ∧
      listKeys_glob_spec (some [rowAB]) "ab*" = [] := by
  exact ⟨rfl, rfl⟩

/-- C6 counterexample: the code strips NULs from *both* ends
(`.strip('\x00')`), while the claim says only trailing null padding is
stripped; on the decoded text NUL `a` with an empty stylesheet the two
pipelines disagree. -/
theorem postprocess_strip_counterexample :
    postprocess [] [nulChar, 'a'] = ['a'] ∧
      postprocess_spec [] [nulChar, 'a'] = [nulChar, 'a'] ∧
      postprocess [] [nulChar, 'a'] ≠ postprocess_spec [] [nulChar, 'a'] := by
  exact ⟨rfl, rfl, by decide⟩

/-- C8: a record span can cross its block's boundary.  On two raw blocks
of decompressed size 10 with strictly increasing keys at 0, 5 and 15, the
row for key `b` gets `record_end = 15` from the next key's start, which
exceeds its own block's `offset + decompressed_size = 10`; for that row
the extractor slices only the originating block's decoded bytes (5 bytes,
the block's tail), not the full 10-byte span. -/
theorem cross_block_span_exists :
    List.Pairwise (fun (a b : Nat × String) => a.1 < b.1) keysC8 ∧
      get_index 0 keysC8 [(14, 10), (14, 10)] fileC8 false (fun _ _ => none) =
        .ok [⟨0, 14, 10, 0, 0, 5, 0, "a"⟩, rowB,
             ⟨14, 14, 10, 0, 15, 20, 10, "c"⟩] ∧
      rowB.offset + rowB.decompressed_size < rowB.record_end ∧
      extract_data fileC8 decodeRaw rowB =
        List.drop 5 (decodeRaw (List.take 14 fileC8) 10) ∧
      (extract_data fileC8 decodeRaw rowB).length = 5 ∧
      rowB.record_end - rowB.record_start = 10 := by
  exact ⟨by decide, rfl, by decide, rfl, rfl, rfl⟩

/-- The rows a block emits carry exactly the consumed keys, in order: the
emitted `(record_start, key_text)` pairs are a take of the pending key
list and the remaining keys are the corresponding drop. -/
theorem splitBlockKeys_take_drop (off ds pos cs bt : Nat) :
    ∀ keys : List (Nat × String),
      (splitBlockKeys off ds pos cs bt keys).1.map
          (fun e => (e.record_start, e.key_text)) =
        keys.take (splitBlockKeys off ds pos cs bt keys).1.length ∧
      (splitBlockKeys off ds pos cs bt keys).2 =
        keys.drop (splitBlockKeys off ds pos cs bt keys).1.length := by
  intro keys
  induction keys with
  | nil => simp [splitBlockKeys]
  | cons k rest ih =>
    obtain ⟨rs, kt⟩ := k
    by_cases hb : off + ds ≤ rs
    · simp [splitBlockKeys, hb]
    · simp only [splitBlockKeys, if_neg hb, List.map_cons, List.length_cons,
        List.take_succ_cons, List.drop_succ_cons]
      exact ⟨by rw [ih.1], ih.2⟩

/-- Block-local fields of every emitted row: its `offset` is the block's
cumulative offset, its `decompressed_size` the block's, and its
`record_start` lies below `offset + decompressed_size` (the loop's
continuation condition). -/
theorem splitBlockKeys_fields (off ds pos cs bt : Nat) :
    ∀ (keys : List (Nat × String)) (e : IndexEntry),
      e ∈ (splitBlockKeys off ds pos cs bt keys).1 →
      e.offset = off ∧ e.decompressed_size = ds ∧
        e.record_start < off + ds := by
  intro keys
  induction keys with
  | nil => simp [splitBlockKeys]
  | cons k rest ih =>
    obtain ⟨rs, kt⟩ := k
    intro e he
    by_cases hb : off + ds ≤ rs
    · simp [splitBlockKeys, hb] at he
    · simp only [splitBlockKeys, if_neg hb, List.mem_cons] at he
      rcases he with he | he
      · subst he
        refine ⟨rfl, rfl, ?_⟩
        show rs < off + ds
        omega
      · exact ih e he

/-- With strictly increasing keys all pending at or past the block's
cumulative offset, every emitted row satisfies
`offset ≤ record_start < record_end`, and every key left over belongs at
or past the next block's cumulative offset. -/
theorem splitBlockKeys_bounds (off ds pos cs bt : Nat) :
    ∀ keys : List (Nat × String),
      List.Pairwise (fun a b => a.1 < b.1) keys →
      (∀ k ∈ keys, off ≤ k.1) →
      (∀ e ∈ (splitBlockKeys off ds pos cs bt keys).1,
          off ≤ e.record_start ∧ e.record_start < e.record_end) ∧
      (∀ k ∈ (splitBlockKeys off ds pos cs bt keys).2, off + ds ≤ k.1) := by
  intro keys
  induction keys with
  | nil => simp [splitBlockKeys]
  | cons k rest ih =>
    obtain ⟨rs, kt⟩ := k
    intro hp hlow
    rw [List.pairwise_cons] at hp
    by_cases hb : off + ds ≤ rs
    · refine ⟨by simp [splitBlockKeys, hb], ?_⟩
      intro q hq
      have hq2 : q = (rs, kt) ∨ q ∈ rest := by
        simpa [splitBlockKeys, hb] using hq
      rcases hq2 with rfl | hq2
      · exact hb
      · exact Nat.le_of_lt (Nat.lt_of_le_of_lt hb (hp.1 q hq2))
    · have hlow2 : ∀ q ∈ rest, off ≤ q.1 := fun q hq =>
        hlow q (List.mem_cons_of_mem _ hq)
      obtain ⟨ihl, ihr⟩ := ih hp.2 hlow2
      refine ⟨?_, ?_⟩
      · intro e he
        cases rest with
        | nil =>
          have he2 : e = ⟨pos, cs, ds, bt, rs, ds + off, off, kt⟩ := by
            simpa [splitBlockKeys, hb] using he
          subst he2
          refine ⟨hlow (rs, kt) (List.mem_cons_self _ _), ?_⟩
          show rs < ds + off
          omega
        | cons q qs =>
          obtain ⟨rs2, kt2⟩ := q
          have he2 : e = ⟨pos, cs, ds, bt, rs, rs2, off, kt⟩ ∨
              e ∈ (splitBlockKeys off ds pos cs bt ((rs2, kt2) :: qs)).1 := by
            simpa [splitBlockKeys, hb] using he
          rcases he2 with rfl | he2
          · exact ⟨hlow (rs, kt) (List.mem_cons_self _ _),
              hp.1 (rs2, kt2) (List.mem_cons_self _ _)⟩
          · exact ihl _ he2
      · intro q hq
        have hq2 : q ∈ (splitBlockKeys off ds pos cs bt rest).2 := by
          simpa [splitBlockKeys, hb] using hq
        exact ihr q hq2

/-- The offset invariant over the whole block loop: with strictly
increasing pending keys all at or past the running cumulative offset,
every row of a successful run satisfies the bounds of C5. -/
theorem getIndexGo_invariant (check : Bool)
    (decode : List Nat → Nat → Option (List Nat)) :
    ∀ (blocks : List (Nat × Nat)) (file : List Nat) (pos off : Nat)
      (keys : List (Nat × String)) (l : List IndexEntry),
      List.Pairwise (fun a b => a.1 < b.1) keys →
      (∀ k ∈ keys, off ≤ k.1) →
      getIndexGo check decode pos off keys blocks file = .ok l →
      ∀ e ∈ l, e.offset ≤ e.record_start ∧
        e.record_start - e.offset < e.decompressed_size ∧
        e.record_start < e.record_end := by
  intro blocks
  induction blocks with
  | nil =>
    intro file pos off keys l _ _ hok
    simp only [getIndexGo, Except.ok.injEq] at hok
    subst hok
    simp
  | cons b bs ih =>
    obtain ⟨cs, ds⟩ := b
    intro file pos off keys l hp hlow hok
    cases hb : blockTypeOf (file.take cs) with
    | none => simp [getIndexGo, hb] at hok
    | some bt =>
      cases hchk : checkBlock check decode (file.take cs) ds with
      | error err => simp [getIndexGo, hb, hchk] at hok
      | ok u =>
        cases hrec : getIndexGo check decode (pos + (cs ⊓ file.length))
            (off + ds) (splitBlockKeys off ds pos cs bt keys).2 bs
            (file.drop cs) with
        | error err => simp [getIndexGo, hb, hchk, hrec] at hok
        | ok es =>
          have hl : l = (splitBlockKeys off ds pos cs bt keys).1 ++ es := by
            have := hok
            simp [getIndexGo, hb, hchk, hrec] at this
            exact this.symm
          subst hl
          intro e he
          rcases List.mem_append.mp he with he | he
          · obtain ⟨hoff, hds, hlt⟩ :=
              splitBlockKeys_fields off ds pos cs bt keys e he
            obtain ⟨hbd, _⟩ := splitBlockKeys_bounds off ds pos cs bt keys
              hp hlow
            obtain ⟨h1, h2⟩ := hbd e he
            rw [hoff, hds]
            exact ⟨h1, by omega, h2⟩
          · have hp2 : List.Pairwise (fun a b => a.1 < b.1)
                (splitBlockKeys off ds pos cs bt keys).2 := by
              rw [(splitBlockKeys_take_drop off ds pos cs bt keys).2]
              exact hp.sublist (List.drop_sublist _ _)
            have hlow2 := (splitBlockKeys_bounds off ds pos cs bt keys
              hp hlow).2
            exact ih (file.drop cs) (pos + (cs ⊓ file.length)) (off + ds)
              (splitBlockKeys off ds pos cs bt keys).2 es hp2 hlow2 hrec e he

/-- C5: offset invariant of emitted rows.  For every block list and every
key list with strictly increasing `record_start` values, every row a
successful `get_index` run emits satisfies `record_start < record_end`
and `offset ≤ record_start` with `record_start - offset` below its own
block's `decompressed_size`. -/
theorem offset_invariant (pos0 : Nat) (keys : List (Nat × String))
    (blocks : List (Nat × Nat)) (file : List Nat) (check : Bool)
    (decode : List Nat → Nat → Option (List Nat)) (l : List IndexEntry)
    (hinc : List.Pairwise (fun a b => a.1 < b.1) keys)
    (hok : get_index pos0 keys blocks file check decode = .ok l) :
    ∀ e ∈ l, e.offset ≤ e.record_start ∧
      e.record_start - e.offset < e.decompressed_size ∧
      e.record_start < e.record_end :=
  getIndexGo_invariant check decode blocks file pos0 0 keys l hinc
    (fun k _ => Nat.zero_le k.1) hok

/-- Witness for C5 on Scenario A's container: the invariant holds for the
first emitted row. -/
theorem offset_invariant_witness :
    List.Pairwise (fun (a b : Nat × String) => a.1 < b.1)
        [(0, "key1"), (10, "key2")] ∧
      (rowA1.offset ≤ rowA1.record_start ∧
        rowA1.record_start - rowA1.offset < rowA1.decompressed_size ∧
        rowA1.record_start < rowA1.record_end) :=
  ⟨by decide,
   offset_invariant 16 [(0, "key1"), (10, "key2")] [(10, 20)] fileA false
     (fun _ _ => none) [rowA1, rowA2] (by decide) rfl rowA1
     (List.mem_cons_self _ _)⟩

/-- A pending key at or past the block's end is never consumed: it stays
in the leftover list together with everything after it, and the rows the
block emits all come from keys before it. -/
theorem splitBlockKeys_blocked (off ds pos cs bt s : Nat) (k : String)
    (ks2 : List (Nat × String)) (hs : off + ds ≤ s) :
    ∀ kp : List (Nat × String),
      ∃ kp2, (splitBlockKeys off ds pos cs bt (kp ++ (s, k) :: ks2)).2 =
          kp2 ++ (s, k) :: ks2 ∧
        (splitBlockKeys off ds pos cs bt (kp ++ (s, k) :: ks2)).1.length +
            kp2.length = kp.length := by
  intro kp
  induction kp with
  | nil => exact ⟨[], by simp [splitBlockKeys, hs], by simp [splitBlockKeys, hs]⟩
  | cons q qs ih =>
    obtain ⟨rs, kt⟩ := q
    by_cases hb : off + ds ≤ rs
    · refine ⟨(rs, kt) :: qs, ?_, ?_⟩
      · simp [splitBlockKeys, hb]
      · simp [splitBlockKeys, hb]
    · obtain ⟨kp2, h1, h2⟩ := ih
      refine ⟨kp2, ?_, ?_⟩
      · simpa [splitBlockKeys, hb] using h1
      · simp only [List.cons_append, splitBlockKeys, if_neg hb,
          List.length_cons, List.append_eq]
        omega

/-- Running the whole loop with `check_block` off over well-typed blocks
always succeeds, and a key whose `record_start` is at or past the
remaining total decompressed size keeps every later key from being
consumed. -/
theorem getIndexGo_blocked (decode : List Nat → Nat → Option (List Nat)) :
    ∀ (blocks : List (Nat × Nat)) (file : List Nat) (pos off : Nat)
      (kp ks2 : List (Nat × String)) (s : Nat) (k : String),
      blocksWellTyped blocks file = true →
      off + sumDecompressed blocks ≤ s →
      ∃ l, getIndexGo false decode pos off (kp ++ (s, k) :: ks2) blocks file
          = .ok l ∧ l.length ≤ kp.length := by
  intro blocks
  induction blocks with
  | nil =>
    intro file pos off kp ks2 s k _ _
    exact ⟨[], rfl, Nat.zero_le _⟩
  | cons b bs ih =>
    obtain ⟨cs, ds⟩ := b
    intro file pos off kp ks2 s k hwt hs
    rw [blocksWellTyped] at hwt
    obtain ⟨hsome, hwt2⟩ := Bool.and_eq_true_iff.mp hwt
    obtain ⟨bt, hb⟩ := Option.isSome_iff_exists.mp hsome
    have hsum : off + ds + sumDecompressed bs ≤ s := by
      simpa [sumDecompressed, Nat.add_assoc] using hs
    obtain ⟨kp2, h1, h2⟩ := splitBlockKeys_blocked off ds pos cs bt s k ks2
      (by omega) kp
    obtain ⟨l2, hok2, hlen2⟩ := ih (file.drop cs) (pos + (cs ⊓ file.length))
      (off + ds) kp2 ks2 s k hwt2 hsum
    refine ⟨(splitBlockKeys off ds pos cs bt (kp ++ (s, k) :: ks2)).1 ++ l2,
      ?_, ?_⟩
    · rw [← h1] at hok2
      simp [getIndexGo, hb, checkBlock, hok2]
    · simp only [List.length_append]
      omega

/-- C10 (implicit): trailing keys are silently dropped.  If some key's
`record_start` is at or past the sum of all blocks' decompressed sizes,
the build (with `check_block` off, the builder's default) still succeeds,
but no row is emitted for that key or any later one: the emitted row count
is bounded by the number of earlier keys, hence strictly less than the
number of input keys, with no failure signal. -/
theorem trailing_keys_dropped (pos0 : Nat) (kp ks2 : List (Nat × String))
    (s : Nat) (k : String) (blocks : List (Nat × Nat)) (file : List Nat)
    (decode : List Nat → Nat → Option (List Nat))
    (hwt : blocksWellTyped blocks file = true)
    (hs : sumDecompressed blocks ≤ s) :
    ∃ l, get_index pos0 (kp ++ (s, k) :: ks2) blocks file false decode =
        .ok l ∧ l.length ≤ kp.length ∧
      l.length < (kp ++ (s, k) :: ks2).length := by
  obtain ⟨l, hok, hlen⟩ := getIndexGo_blocked decode blocks file pos0 0 kp
    ks2 s k hwt (by simpa using hs)
  refine ⟨l, hok, hlen, ?_⟩
  simp only [List.length_append, List.length_cons]
  omega

/-- Witness for C10: one raw block of decompressed size 5, keys at 0 and
at 5 (the latter past the total); the build returns exactly one row. -/
theorem trailing_keys_dropped_witness :
    blocksWellTyped [(4, 5)] [0, 0, 0, 0] = true ∧
      sumDecompressed [(4, 5)] ≤ 5 ∧
      ∃ l, get_index 0 ([(0, "a")] ++ (5, "b") :: []) [(4, 5)] [0, 0, 0, 0]
          false (fun _ _ => none) = .ok l ∧
        l.length ≤ [((0 : Nat), "a")].length ∧
        l.length < ([(0, "a")] ++ (5, "b") :: []).length :=
  ⟨by decide, by decide,
   trailing_keys_dropped 0 [(0, "a")] [] 5 "b" [(4, 5)] [0, 0, 0, 0]
     (fun _ _ => none) (by decide) (by decide)⟩

/-- A lone `%` matches every string. -/
theorem likeMatch_percent (s : List Char) : likeMatch ['%'] s = true := by
  have h : likeMatch ['%'] s = s.tails.any (fun t => likeMatch [] t) := by
    simp [likeMatch]
  rw [h]
  simp only [likeMatch, List.any_eq_true]
  exact ⟨[], by simp [List.mem_tails], rfl⟩

/-- Every tail list contains the empty suffix. -/
theorem tails_any_isEmpty (t : List Char) :
    (t.tails.any fun x => x.isEmpty) = true := by
  simp only [List.any_eq_true]
  exact ⟨[], by simp [List.mem_tails], rfl⟩

/-- Boolean character equality is symmetric. -/
theorem char_beq_comm (x y : Char) : (x == y) = (y == x) := by
  by_cases h : x = y
  · rw [h]
  · have h1 : (x == y) = false := by simpa using h
    have h2 : (y == x) = false := by simpa using Ne.symm h
    rw [h1, h2]

/-- The translated pattern `ab%` matches exactly the strings starting
with `ab` up to ASCII case. -/
theorem likeMatch_ab (s : List Char) :
    likeMatch ['a', 'b', '%'] s = startsWithAbCI s := by
  match s with
  | [] => rfl
  | [a] => simp [likeMatch, startsWithAbCI]
  | a :: b :: t =>
    have ha : sqliteLowerChar 'a' = 'a' := rfl
    have hb2 : sqliteLowerChar 'b' = 'b' := rfl
    simp [likeMatch, startsWithAbCI, tails_any_isEmpty, ha, hb2,
      char_beq_comm]

/-- C4 (amended): key listing matches under the store's `LIKE` semantics
after the `*` to `%` translation, so `listKeys("ab*")` returns exactly the
keys whose text starts with `ab` up to ASCII case (in stored order), and
`listKeys` with no pattern returns all keys. -/
theorem listKeys_like_semantics (rows : List IndexEntry) :
    get_keys (some rows) "ab*" =
      (rows.map (fun r => r.key_text)).filter
        (fun t => startsWithAbCI t.data) ∧
      get_keys (some rows) "" = rows.map (fun r => r.key_text) := by
  constructor
  · have hne : ("ab*" : String) ≠ "" := by decide
    have hpat : translateStar ("ab*".data) = ['a', 'b', '%'] := rfl
    simp only [get_keys, if_pos hne, hpat]
    induction rows with
    | nil => rfl
    | cons r rs ih =>
      simp only [likeMatch_ab] at ih
      simp only [List.filter_cons, List.map_cons, likeMatch_ab]
      by_cases h : startsWithAbCI r.key_text.data
      · simp [h, ih]
      · simp [h, ih]
  · simp [get_keys]

/-- The spec-side fold over (tag, part) pairs agrees with the source-side
parallel walk. -/
theorem foldSegments_eq_rsGo (ss : List (String × String × String)) :
    ∀ (parts tags : List (List Char)) (init : List Char),
      foldSegments ss tags parts init = init ++ rsGo ss parts tags := by
  intro parts
  induction parts with
  | nil =>
    intro tags init
    cases tags <;> simp [foldSegments, rsGo]
  | cons p ps ih =>
    intro tags init
    cases tags with
    | nil => simp [foldSegments, rsGo]
    | cons t ts =>
      have h := ih ts (init ++ segmentOf ss t p)
      simp only [foldSegments, List.zip_cons_cons, List.foldl_cons] at h ⊢
      rw [h]
      simp [rsGo, List.append_assoc]

/-- The two formulations of the substitution step agree. -/
theorem replace_eq_substitution (ss : List (String × String × String))
    (text : List Char) :
    replace_stylesheet ss text = substitution_spec ss text := by
  unfold replace_stylesheet substitution_spec
  cases h : (splitTags text).1 with
  | nil => simp [h]
  | cons p0 rest => simp [h, foldSegments_eq_rsGo]

/-- C6 (amended): the post-processing of a looked-up text record strips
null padding from *both* ends, then applies the stylesheet substitution
only when the stylesheet mapping is nonempty; within the substitution,
text is split on `` `N` `` markers, literal text between markers is
emitted, a missing tag yields an empty (open, close) pair, and a part
ending in a newline has its close markup placed before a normalized CRLF
terminator. -/
theorem postprocess_amended_equiv (ss : List (String × String × String))
    (text : List Char) :
    postprocess ss text = postprocess_spec_amended ss text := by
  unfold postprocess postprocess_spec_amended
  have hstrip : pyStrip0 text =
      List.rdropWhile (· == nulChar) (text.dropWhile (· == nulChar)) := by
    simp [pyStrip0, List.rdropWhile]
  rw [hstrip]
  by_cases h : ss.isEmpty
  · simp [h]
  · simp [h, replace_eq_substitution]

end DictVocab
